import Mathlib

/-!
# Verification of the Tux-Ai conversational memory subsystem

Shallow embedding of `src/src/core/memory_system.py` (class `MemorySystem`):
the SQLite tables become lists of records, SQL `DATETIME` strings (which the
code compares lexicographically in the fixed `%Y-%m-%d %H:%M:%S` format, an
order embedding into the naturals) become `Nat` timestamps, and SQL `REAL`
columns become `ℚ`.  The external library calls are modelled as follows:

* `TfidfVectorizer.fit` keeps only the corpus it was fitted on (the store's
  `index` field holds `some corpus` once fitted, `none` before any fit);
  `TfidfVectorizer.transform` is a parameter `tfidf : List String → String →
  List ℚ` of every operation that embeds text (the vectorizer's output is a
  dense nonnegative vector whose dimension is the fitted vocabulary size).
* `sklearn.metrics.pairwise.cosine_similarity` on a single pair of vectors is
  `cosineSimilarity` below: it raises (modelled by `none`) when the two
  dimensions disagree, and otherwise returns dot(a,b)/(‖a‖·‖b‖); sklearn
  treats a zero-norm vector as having norm 1, which yields 0, and Lean's
  division-by-zero convention gives the same value, so no special case is
  needed.
* Python's `list.sort(key=..., reverse=True)` is a stable descending sort,
  modelled by the stable insertion sort `sortDesc` below.
-/

/-- A row of the `conversations` table (`CREATE TABLE conversations ...`).
`embedding` is the pickled vector BLOB; `none` stands for a NULL/empty blob. -/
structure ConversationTurn where
  id : Nat
  session_id : String
  user_message : String
  ai_response : String
  timestamp : Nat
  topic : Option String
  importance : Int
  embedding : Option (List ℚ)
deriving DecidableEq, Repr

/-- A row of the `knowledge` table. -/
structure KnowledgeFact where
  id : Nat
  fact : String
  category : String
  source : String
  confidence : ℚ
  last_used : Option Nat
  usage_count : Nat
  created_at : Nat
deriving DecidableEq, Repr

/-- A row of the `user_preferences` table. -/
structure Preference where
  user_id : String
  preference_type : String
  preference_value : String
  strength : ℚ
deriving DecidableEq, Repr

/-- The persistent state of a `MemorySystem`: the three tables plus the
vectorizer.  `index = some corpus` means the `TfidfVectorizer` has been fitted
on `corpus`; `index = none` means it has never been fitted. -/
structure MemoryStore where
  conversations : List ConversationTurn
  knowledge : List KnowledgeFact
  preferences : List Preference
  index : Option (List String)
deriving DecidableEq, Repr

/-- The text `f"{user_message} {ai_response}"` of a stored turn, as built both
in `save_conversation` and in `_update_vectorizer`. -/
def combinedText (t : ConversationTurn) : String :=
  t.user_message ++ " " ++ t.ai_response

/-- A freshly constructed `MemorySystem` on an empty database: empty tables,
vectorizer never fitted. -/
def initialStore : MemoryStore :=
  { conversations := [], knowledge := [], preferences := [], index := none }

/-! ## A stable descending sort

`sortDesc key l` models Python's `l.sort(key=key, reverse=True)` (CPython's
Timsort is stable, and `reverse=True` does not disturb the order of elements
with equal keys).  It also models SQLite's `ORDER BY timestamp DESC`, whose
tie order among equal timestamps is unspecified; the claims constrain only
pairs with distinct timestamps, so the stable choice is harmless. -/

/-- Insert `x` into `l` before the first element whose key is `≤ key x`
(so an element equal in key to `x` ends up after `x`: stability for an
element that preceded all of `l` in the original list). -/
def insertDesc {α K : Type} [LinearOrder K] (key : α → K) (x : α) : List α → List α
  | [] => [x]
  | y :: ys => if key y ≤ key x then x :: y :: ys else y :: insertDesc key x ys

/-- Stable insertion sort, descending by `key`. -/
def sortDesc {α K : Type} [LinearOrder K] (key : α → K) : List α → List α
  | [] => []
  | x :: xs => insertDesc key x (sortDesc key xs)

theorem mem_insertDesc {α K : Type} [LinearOrder K] (key : α → K) (x z : α) :
    ∀ l : List α, z ∈ insertDesc key x l ↔ z = x ∨ z ∈ l := by
  intro l
  induction l with
  | nil => simp [insertDesc]
  | cons y ys ih =>
    by_cases h : key y ≤ key x
    · simp [insertDesc, h]
    · simp [insertDesc, h, ih]
      tauto

theorem mem_sortDesc {α K : Type} [LinearOrder K] (key : α → K) (z : α) :
    ∀ l : List α, z ∈ sortDesc key l ↔ z ∈ l := by
  intro l
  induction l with
  | nil => simp [sortDesc]
  | cons x xs ih => simp [sortDesc, mem_insertDesc, ih]

/-- The ordering that a stable descending sort guarantees between any element
`a` and any element `b` that follows it: `b`'s key is no larger, and if the
keys are equal then the auxiliary relation `T` (holding of pairs in original
order) relates them. -/
def SKey {α K : Type} [LinearOrder K] (key : α → K) (T : α → α → Prop) (a b : α) : Prop :=
  key b ≤ key a ∧ (key a = key b → T a b)

theorem insertDesc_pairwise {α K : Type} [LinearOrder K] (key : α → K)
    (T : α → α → Prop) (x : α) :
    ∀ l : List α, l.Pairwise (SKey key T) → (∀ y ∈ l, key x = key y → T x y) →
      (insertDesc key x l).Pairwise (SKey key T) := by
  intro l
  induction l with
  | nil => intro _ _; simp [insertDesc, List.pairwise_singleton]
  | cons y ys ih =>
    intro hl hx
    rcases List.pairwise_cons.mp hl with ⟨hy, hys⟩
    by_cases h : key y ≤ key x
    · simp only [insertDesc, if_pos h]
      refine List.pairwise_cons.mpr ⟨?_, hl⟩
      intro z hz
      rcases List.mem_cons.mp hz with hz | hz
      · subst hz
        exact ⟨h, fun he => hx z (List.mem_cons_self z ys) he⟩
      · refine ⟨le_trans (hy z hz).1 h, ?_⟩
        intro he
        exact hx z (List.mem_cons_of_mem y hz) he
    · simp only [insertDesc, if_neg h]
      refine List.pairwise_cons.mpr ⟨?_, ?_⟩
      · intro z hz
        rcases (mem_insertDesc key x z ys).mp hz with hz | hz
        · subst hz
          exact ⟨le_of_lt (lt_of_not_le h), fun he => absurd (le_of_eq he) h⟩
        · exact hy z hz
      · exact ih hys (fun z hz he => hx z (List.mem_cons_of_mem y hz) he)

theorem sortDesc_pairwise {α K : Type} [LinearOrder K] (key : α → K)
    (T : α → α → Prop) :
    ∀ l : List α, l.Pairwise T → (sortDesc key l).Pairwise (SKey key T) := by
  intro l
  induction l with
  | nil => intro _; simp [sortDesc]
  | cons x xs ih =>
    intro hl
    rcases List.pairwise_cons.mp hl with ⟨hx, hxs⟩
    refine insertDesc_pairwise key T x (sortDesc key xs) (ih hxs) ?_
    intro y hy _
    exact hx y ((mem_sortDesc key y xs).mp hy)

/-- With the trivial auxiliary relation: `sortDesc` yields keys in
nonincreasing order. -/
theorem sortDesc_sorted {α K : Type} [LinearOrder K] (key : α → K) (l : List α) :
    (sortDesc key l).Pairwise (fun a b => key b ≤ key a) := by
  have h := sortDesc_pairwise key (fun _ _ => True) l
    (List.pairwise_iff_forall_sublist.mpr (fun _ => trivial))
  exact h.imp (fun hab => hab.1)

/-! ## Embeddings and cosine similarity -/

/-- The dot product of two rational vectors (entrywise product, summed;
extra entries of the longer vector are dropped, though the claims only use it
on equal-length or zero vectors). -/
def dotQ (a b : List ℚ) : ℚ :=
  (List.zipWith (fun x y => x * y) a b).sum

/-- The value sklearn's `cosine_similarity` computes on one pair of
equal-dimension vectors: dot(a,b)/(‖a‖·‖b‖).  sklearn replaces a zero norm by
1 before dividing, which makes the result 0 whenever either vector is zero;
Lean's convention `x / 0 = 0` yields the same value, so the formula needs no
special case. -/
noncomputable def cosVal (a b : List ℚ) : ℝ :=
  ((dotQ a b : ℚ) : ℝ) / (Real.sqrt ((dotQ a a : ℚ) : ℝ) * Real.sqrt ((dotQ b b : ℚ) : ℝ))

/-- `sklearn.metrics.pairwise.cosine_similarity([a], [b])[0][0]`: raises a
`ValueError` (modelled as `none`) when the dimensions disagree, otherwise
returns `cosVal a b`. -/
noncomputable def cosineSimilarity (a b : List ℚ) : Option ℝ :=
  if a.length = b.length then some (cosVal a b) else none

/-- `MemorySystem._create_embedding(text)`: `vectorizer.transform([text])` on
an unfitted vectorizer raises `NotFittedError`, which the bare `except`
converts to `np.zeros(1000)`; on a fitted vectorizer it returns the transform
(the external library call, passed in as `tfidf`). -/
def create_embedding (tfidf : List String → String → List ℚ)
    (index : Option (List String)) (text : String) : List ℚ :=
  match index with
  | none => List.replicate 1000 0
  | some corpus => tfidf corpus text

/-- The vector `get_relevant_context` compares against for a stored row:
`pickle.loads(row[6]) if row[6] else np.zeros(1000)`. -/
def effEmbedding (t : ConversationTurn) : List ℚ :=
  t.embedding.getD (List.replicate 1000 0)

/-- One entry of the list `get_relevant_context` builds: the stored row
together with the similarity computed for it. -/
structure ScoredTurn where
  turn : ConversationTurn
  similarity : ℝ

/-- The scoring loop of `get_relevant_context`: walk the window front to
back, computing each row's similarity; the first dimension mismatch raises
(propagating `none`, caught by the outer `except`). -/
noncomputable def scoreWindow (qe : List ℚ) : List ConversationTurn → Option (List ScoredTurn)
  | [] => some []
  | t :: ts =>
    match cosineSimilarity qe (effEmbedding t), scoreWindow qe ts with
    | some s, some rest => some ({ turn := t, similarity := s } :: rest)
    | _, _ => none

/-- `MemorySystem.get_relevant_context(query, limit)`: embed the query, load
the 100 most recent rows (`ORDER BY timestamp DESC LIMIT 100`), score each
against the query, sort descending by similarity (Python's stable
`list.sort(key=..., reverse=True)`), truncate to `limit`.  Any exception —
in this model only the cosine dimension mismatch — is caught and turned
into an empty result. -/
noncomputable def get_relevant_context (tfidf : List String → String → List ℚ)
    (store : MemoryStore) (query : String) (limit : Nat) : List ScoredTurn :=
  let qe := create_embedding tfidf store.index query
  let window := (sortDesc (fun t => t.timestamp) store.conversations).take 100
  match scoreWindow qe window with
  | none => []
  | some scored => (sortDesc (fun st => st.similarity) scored).take limit

/-- The corpus `_update_vectorizer(text)` refits on: it SELECTs every row of
`conversations` — the INSERT of the new turn has already been committed, so
the new row is included — and then appends the new text once more. -/
def updateVectorizerCorpus (convs : List ConversationTurn) (text : String) : List String :=
  convs.map combinedText ++ [text]

/-- `MemorySystem.save_conversation(session_id, user_message, ai_response,
topic, importance)`.  `storageFault` models the persistence medium failing
(the only raiser inside the `try`: `_create_embedding` and
`_update_vectorizer` both swallow their own exceptions); on a fault the row
is not stored and the method returns `False`, otherwise the row is inserted
with a server-assigned timestamp `now` and id, the vectorizer is refitted via
`_update_vectorizer`, and the method returns `True`. -/
def save_conversation (tfidf : List String → String → List ℚ) (storageFault : Bool)
    (store : MemoryStore) (session_id user_message ai_response : String)
    (topic : Option String) (importance : Int) (now id : Nat) : MemoryStore × Bool :=
  if storageFault then (store, false)
  else
    let combined := user_message ++ " " ++ ai_response
    let turn : ConversationTurn :=
      { id := id, session_id := session_id, user_message := user_message,
        ai_response := ai_response, timestamp := now, topic := topic,
        importance := importance,
        embedding := some (create_embedding tfidf store.index combined) }
    let convs : List ConversationTurn := store.conversations ++ [turn]
    ({ store with conversations := convs,
                  index := some (updateVectorizerCorpus convs combined) }, true)

/-- `MemorySystem.add_knowledge(fact, category, source, confidence)`: a plain
INSERT; the confidence argument is stored verbatim, with no range check. -/
def add_knowledge (store : MemoryStore) (fact category source : String)
    (confidence : ℚ) (id now : Nat) : MemoryStore :=
  { store with knowledge := store.knowledge ++
      [{ id := id, fact := fact, category := category, source := source,
         confidence := confidence, last_used := none, usage_count := 0,
         created_at := now }] }

/-- Does a `user_preferences` row match the looked-up key? -/
def prefKeyMatches (user_id ptype : String) (p : Preference) : Bool :=
  p.user_id == user_id && p.preference_type == ptype

/-- The table-level effect of `update_preference`: the SELECT's `fetchone()`
finds the first row with this (user_id, preference_type); if one exists, that
row's value is replaced and its strength becomes `min(1.0, old + strength)`;
otherwise a new row is INSERTed with strength equal to the raw delta. -/
def upsertPreference (user_id ptype pvalue : String) (strength : ℚ) :
    List Preference → List Preference
  | [] => [{ user_id := user_id, preference_type := ptype,
             preference_value := pvalue, strength := strength }]
  | p :: ps =>
    if prefKeyMatches user_id ptype p then
      { p with preference_value := pvalue,
               strength := min 1 (p.strength + strength) } :: ps
    else
      p :: upsertPreference user_id ptype pvalue strength ps

/-- `MemorySystem.update_preference(preference_type, preference_value,
user_id, strength)`. -/
def update_preference (store : MemoryStore) (ptype pvalue user_id : String)
    (strength : ℚ) : MemoryStore :=
  { store with preferences := upsertPreference user_id ptype pvalue strength store.preferences }

/-- One call's arguments to `update_preference`. -/
structure PrefCall where
  preference_type : String
  preference_value : String
  user_id : String
  strength : ℚ
deriving DecidableEq, Repr

/-- A sequence of `update_preference` calls, applied in order. -/
def runPreferences (calls : List PrefCall) (store : MemoryStore) : MemoryStore :=
  calls.foldl (fun s c => update_preference s c.preference_type c.preference_value c.user_id c.strength) store

/-- The WHERE clause of the decay UPDATE in `cleanup_old_memory`:
`last_used < cutoff OR last_used IS NULL`. -/
def decayQualifies (cutoff : Nat) (f : KnowledgeFact) : Bool :=
  match f.last_used with
  | none => true
  | some lu => decide (lu < cutoff)

/-- The per-row effect of `UPDATE knowledge SET confidence = confidence * 0.9
WHERE last_used < cutoff OR last_used IS NULL`. -/
def decayStep (cutoff : Nat) (f : KnowledgeFact) : KnowledgeFact :=
  if decayQualifies cutoff f then { f with confidence := f.confidence * (9 / 10) } else f

/-- The predicate a `conversations` row must fail to be DELETEd by
`cleanup_old_memory`: `timestamp < cutoff AND importance < 2`. -/
def purgeMatches (cutoff : Nat) (t : ConversationTurn) : Bool :=
  decide (t.timestamp < cutoff) && decide (t.importance < 2)

/-- `MemorySystem.cleanup_old_memory(days_old)` with the computed cutoff
timestamp made explicit: DELETE old low-importance conversations, then decay
the confidence of facts unused since the cutoff (or never used). -/
def cleanup_old_memory (store : MemoryStore) (cutoff : Nat) : MemoryStore :=
  { store with
      conversations := store.conversations.filter (fun t => !purgeMatches cutoff t),
      knowledge := store.knowledge.map (decayStep cutoff) }

/-! ## Helper lemmas -/

theorem scoreWindow_map_turn (qe : List ℚ) :
    ∀ (w : List ConversationTurn) (s : List ScoredTurn),
      scoreWindow qe w = some s → s.map ScoredTurn.turn = w := by
  intro w
  induction w with
  | nil =>
    intro s hs
    simp only [scoreWindow, Option.some.injEq] at hs
    simp [← hs]
  | cons t ts ih =>
    intro s hs
    unfold scoreWindow at hs
    cases h1 : cosineSimilarity qe (effEmbedding t) with
    | none => rw [h1] at hs; simp at hs
    | some v =>
      cases h2 : scoreWindow qe ts with
      | none => rw [h1, h2] at hs; simp at hs
      | some rest =>
        rw [h1, h2] at hs
        simp only [Option.some.injEq] at hs
        subst hs
        simp [ih rest h2]

theorem scoreWindow_some (qe : List ℚ) :
    ∀ w : List ConversationTurn,
      (∀ t ∈ w, (effEmbedding t).length = qe.length) →
      ∃ s, scoreWindow qe w = some s ∧ s.map ScoredTurn.turn = w ∧
        ∀ st ∈ s, st.similarity = cosVal qe (effEmbedding st.turn) := by
  intro w
  induction w with
  | nil => intro _; exact ⟨[], rfl, rfl, by simp⟩
  | cons t ts ih =>
    intro hdim
    have hcos : cosineSimilarity qe (effEmbedding t) = some (cosVal qe (effEmbedding t)) := by
      have h := hdim t (List.mem_cons_self t ts)
      simp [cosineSimilarity, h.symm]
    rcases ih (fun u hu => hdim u (List.mem_cons_of_mem t hu)) with ⟨rest, hrest, hmap, hval⟩
    refine ⟨{ turn := t, similarity := cosVal qe (effEmbedding t) } :: rest, ?_, ?_, ?_⟩
    · unfold scoreWindow
      rw [hcos, hrest]
    · simp [hmap]
    · intro st hst
      rcases List.mem_cons.mp hst with hst | hst
      · subst hst; rfl
      · exact hval st hst

theorem dotQ_eq_zero (a : List ℚ) :
    ∀ b : List ℚ, (∀ x ∈ b, x = 0) → dotQ a b = 0 := by
  induction a with
  | nil => intro b _; cases b <;> simp [dotQ]
  | cons x xs ih =>
    intro b hb
    cases b with
    | nil => simp [dotQ]
    | cons y ys =>
      have hy : y = 0 := hb y (List.mem_cons_self y ys)
      have hys := ih ys (fun z hz => hb z (List.mem_cons_of_mem y hz))
      simp only [dotQ, List.zipWith_cons_cons, List.sum_cons] at *
      rw [hy, mul_zero, zero_add, hys]

theorem cosVal_zero_right (a b : List ℚ) (hb : ∀ x ∈ b, x = 0) : cosVal a b = 0 := by
  unfold cosVal
  rw [dotQ_eq_zero a b hb]
  simp

/-! ## C1: ranking order -/

/-- C1: For every state of the store and every query, the sequence returned
by `get_relevant_context` has at most `limit` elements, is sorted by
similarity in descending order, and any two results with equal similarity
appear with the more recent `timestamp` (created_at) first.  The tie-break
holds because the window is read in `ORDER BY timestamp DESC` order and
Python's sort is stable. -/
theorem C1_ranking_order (tfidf : List String → String → List ℚ)
    (store : MemoryStore) (query : String) (limit : Nat) :
    (get_relevant_context tfidf store query limit).length ≤ limit ∧
    (get_relevant_context tfidf store query limit).Pairwise
      (fun a b => b.similarity ≤ a.similarity ∧
        (a.similarity = b.similarity → b.turn.timestamp ≤ a.turn.timestamp)) := by
  simp only [get_relevant_context]
  cases hs : scoreWindow (create_embedding tfidf store.index query)
      ((sortDesc (fun t => t.timestamp) store.conversations).take 100) with
  | none => simp
  | some scored =>
    dsimp only
    constructor
    · rw [List.length_take]
      exact Nat.min_le_left _ _
    · have hwin : ((sortDesc (fun t : ConversationTurn => t.timestamp)
          store.conversations).take 100).Pairwise
          (fun a b => b.timestamp ≤ a.timestamp) :=
        (sortDesc_sorted (fun t : ConversationTurn => t.timestamp)
          store.conversations).sublist (List.take_sublist 100 _)
      have hmap := scoreWindow_map_turn _ _ _ hs
      have hT : scored.Pairwise
          (fun a b : ScoredTurn => b.turn.timestamp ≤ a.turn.timestamp) := by
        rw [← hmap] at hwin
        exact (List.pairwise_map.mp hwin)
      have hsorted := sortDesc_pairwise (fun st : ScoredTurn => st.similarity)
        (fun a b => b.turn.timestamp ≤ a.turn.timestamp) scored hT
      have := hsorted.sublist (List.take_sublist limit _)
      exact this.imp (fun h => ⟨h.1, h.2⟩)

/-! ## C5: graceful empty state -/

/-- C5: calling `get_relevant_context` on a fresh store — no turn ever
appended, vectorizer never fitted — returns the empty list for every query
and limit (the `NotFittedError` inside `_create_embedding` is swallowed and
the SELECT yields no rows), rather than raising: in this total model the
function is defined and equals `[]`. -/
theorem C5_empty_state (tfidf : List String → String → List ℚ)
    (query : String) (limit : Nat) :
    get_relevant_context tfidf initialStore query limit = [] := by
  simp [get_relevant_context, initialStore, sortDesc, scoreWindow]

/-! ## C6: missing / zero embeddings -/

/-- A stand-in for `vectorizer.transform` under a fitted vocabulary of two
terms: every query embeds to a two-dimensional vector (here one containing
none of the vocabulary words in its second slot). -/
def tfidfTwo : List String → String → List ℚ := fun _ _ => [1, 0]

/-- A stored turn whose `embedding` BLOB is NULL: `get_relevant_context`
falls back to `np.zeros(1000)` for it. -/
def turnNullEmb : ConversationTurn :=
  { id := 2, session_id := "s1", user_message := "what is tux",
    ai_response := "a penguin", timestamp := 2, topic := none,
    importance := 1, embedding := none }

/-- A perfectly rankable stored turn with a two-dimensional embedding
matching the fitted vocabulary. -/
def turnVecEmb : ConversationTurn :=
  { id := 1, session_id := "s1", user_message := "hello",
    ai_response := "hi", timestamp := 1, topic := none,
    importance := 1, embedding := some [1/2, 0] }

/-- A store whose vectorizer is fitted (two-term vocabulary) and which holds
one NULL-embedding turn and one rankable turn. -/
def storeMixedEmb : MemoryStore :=
  { conversations := [turnVecEmb, turnNullEmb], knowledge := [],
    preferences := [], index := some ["hello hi"] }

set_option maxRecDepth 8000 in
/-- C6 fails on the code: with a fitted vocabulary of dimension 2, the NULL
embedding's 1000-dimensional zero fallback makes `cosine_similarity` raise a
dimension-mismatch `ValueError`; the outer `except` then returns `[]`, so the
single bad turn discards the rankable turn as well instead of being scored 0. -/
theorem C6_counterexample :
    get_relevant_context tfidfTwo storeMixedEmb "query" 5 = [] ∧
    storeMixedEmb.conversations.length = 2 := by
  constructor
  · rfl
  · rfl

/-- C6 amended: only when every turn in the retrieval window has an effective
embedding of the same dimension as the query embedding does the call avoid the
exception path; in that case the result is the similarity-ranked window, and
every turn whose effective embedding is all-zero (in particular a NULL
embedding when the fitted dimension happens to be 1000) is scored exactly 0.
Otherwise (dimension mismatch, shown by `C6_counterexample`) the whole call
returns `[]`. -/
theorem C6_zero_scored (tfidf : List String → String → List ℚ)
    (store : MemoryStore) (query : String) (limit : Nat)
    (hdim : ∀ t ∈ (sortDesc (fun t => t.timestamp) store.conversations).take 100,
      (effEmbedding t).length = (create_embedding tfidf store.index query).length) :
    ∃ scored,
      scoreWindow (create_embedding tfidf store.index query)
        ((sortDesc (fun t => t.timestamp) store.conversations).take 100) = some scored ∧
      get_relevant_context tfidf store query limit
        = (sortDesc (fun st => st.similarity) scored).take limit ∧
      (∀ st ∈ scored, (∀ x ∈ effEmbedding st.turn, x = 0) → st.similarity = 0) := by
  rcases scoreWindow_some _ _ hdim with ⟨scored, hsc, _, hval⟩
  refine ⟨scored, hsc, ?_, ?_⟩
  · simp only [get_relevant_context]
    rw [hsc]
  · intro st hst hzero
    rw [hval st hst]
    exact cosVal_zero_right _ _ hzero

/-- A stand-in for `vectorizer.transform` whose fitted vocabulary also has
dimension two, used to exercise the dimension-matching case. -/
def tfidfTwoB : List String → String → List ℚ := fun _ _ => [0, 1]

/-- A stored turn with an all-zero two-dimensional embedding. -/
def turnZeroEmb : ConversationTurn :=
  { id := 2, session_id := "s1", user_message := "a", ai_response := "b",
    timestamp := 2, topic := none, importance := 1, embedding := some [0, 0] }

/-- A second, nonzero-embedding turn in the same store. -/
def turnOtherEmb : ConversationTurn :=
  { id := 1, session_id := "s1", user_message := "c", ai_response := "d",
    timestamp := 1, topic := none, importance := 1, embedding := some [1, 0] }

/-- Companion store for the dimension-matching case of C6. -/
def storeZeroEmb : MemoryStore :=
  { conversations := [turnOtherEmb, turnZeroEmb], knowledge := [],
    preferences := [], index := some ["c d"] }

theorem C6_zero_scored_witness :
    (∀ t ∈ (sortDesc (fun t : ConversationTurn => t.timestamp)
        storeZeroEmb.conversations).take 100,
      (effEmbedding t).length
        = (create_embedding tfidfTwoB storeZeroEmb.index "q").length) ∧
    (∃ scored,
      scoreWindow (create_embedding tfidfTwoB storeZeroEmb.index "q")
        ((sortDesc (fun t => t.timestamp) storeZeroEmb.conversations).take 100)
          = some scored ∧
      get_relevant_context tfidfTwoB storeZeroEmb "q" 5
        = (sortDesc (fun st => st.similarity) scored).take 5 ∧
      (∀ st ∈ scored, (∀ x ∈ effEmbedding st.turn, x = 0) → st.similarity = 0)) :=
  ⟨by decide, C6_zero_scored tfidfTwoB storeZeroEmb "q" 5 (by decide)⟩

/-! ## C2: refit corpus on append -/

/-- A stand-in transform used only to drive `save_conversation` in the C2
counterexample (its output never matters there). -/
def tfidfConst : List String → String → List ℚ := fun _ _ => []

/-- C2 fails on the code: `_update_vectorizer` runs after the INSERT has been
committed, so its `SELECT user_message, ai_response FROM conversations`
already returns the new row — and the method then appends the new text once
more.  Starting from an empty store, one `save_conversation("s1", "hello",
"hi")` therefore refits on `["hello hi", "hello hi"]`: the single stored turn
contributes twice, so the fit corpus is not a permutation of the stored
turns' texts. -/
theorem C2_counterexample :
    ¬ (∀ corpus,
        (save_conversation tfidfConst false initialStore "s1" "hello" "hi"
          none 1 0 1).1.index = some corpus →
        corpus.Perm
          ((save_conversation tfidfConst false initialStore "s1" "hello" "hi"
            none 1 0 1).1.conversations.map combinedText)) := by
  intro h
  have h2 := h ["hello hi", "hello hi"] (by rfl)
  have h3 := h2.length_eq
  simp [save_conversation, initialStore] at h3

/-- C2 amended: each `save_conversation` refits the vectorizer over the full
post-insert corpus of stored turns *plus one extra copy of the newest turn's
text*: every text occurs in the fit corpus as often as it occurs among the
stored turns, except the new combined text, which occurs once more. -/
theorem C2_refit_corpus (tfidf : List String → String → List ℚ)
    (store : MemoryStore) (sid um ar : String) (topic : Option String)
    (imp : Int) (now id : Nat) :
    (save_conversation tfidf false store sid um ar topic imp now id).1.index
      = some (updateVectorizerCorpus
          (save_conversation tfidf false store sid um ar topic imp now id).1.conversations
          (um ++ " " ++ ar)) ∧
    (∀ text : String,
      (updateVectorizerCorpus
          (save_conversation tfidf false store sid um ar topic imp now id).1.conversations
          (um ++ " " ++ ar)).count text
        = ((save_conversation tfidf false store sid um ar topic imp now id).1.conversations.map
            combinedText).count text
          + (if text = um ++ " " ++ ar then 1 else 0)) := by
  constructor
  · rfl
  · intro text
    simp only [updateVectorizerCorpus, List.count_append]
    congr 1
    by_cases h : text = um ++ " " ++ ar
    · subst h
      simp [List.count_singleton]
    · simp [List.count_singleton, h]

/-! ## C7: storage failure signalling -/

/-- C7: `save_conversation` fails exactly when the storage medium errors
(everything else inside its `try` swallows its own exceptions), and the
failure is distinguishable by the caller: the method returns `False`, the
turn is not stored; on success it returns `True` and the turn is appended. -/
theorem C7_storage_failure (tfidf : List String → String → List ℚ)
    (store : MemoryStore) (sid um ar : String) (topic : Option String)
    (imp : Int) (now id : Nat) :
    (∀ fault : Bool,
      (save_conversation tfidf fault store sid um ar topic imp now id).2 = false
        ↔ fault = true) ∧
    (save_conversation tfidf true store sid um ar topic imp now id).1 = store ∧
    (save_conversation tfidf false store sid um ar topic imp now id).1.conversations
      ≠ store.conversations := by
  refine ⟨?_, rfl, ?_⟩
  · intro fault
    cases fault <;> simp [save_conversation]
  · intro h
    have hl := congrArg List.length h
    simp [save_conversation] at hl

/-! ## C3: preference cap -/

/-- The (user_id, preference_type) key of a preference row. -/
def prefKey (p : Preference) : String × String := (p.user_id, p.preference_type)

theorem prefKeyMatches_iff (user_id ptype : String) (p : Preference) :
    prefKeyMatches user_id ptype p = true ↔ prefKey p = (user_id, ptype) := by
  simp [prefKeyMatches, prefKey, Prod.ext_iff]

theorem upsertPreference_strength_le (user_id ptype pvalue : String) (strength : ℚ)
    (hs : strength ≤ 1) :
    ∀ ps : List Preference, (∀ p ∈ ps, p.strength ≤ 1) →
      ∀ p ∈ upsertPreference user_id ptype pvalue strength ps, p.strength ≤ 1 := by
  intro ps
  induction ps with
  | nil =>
    intro _ p hp
    simp only [upsertPreference, List.mem_singleton] at hp
    subst hp
    exact hs
  | cons q qs ih =>
    intro hall p hp
    by_cases hm : prefKeyMatches user_id ptype q
    · simp only [upsertPreference, if_pos hm] at hp
      rcases List.mem_cons.mp hp with hp | hp
      · subst hp
        exact min_le_left _ _
      · exact hall p (List.mem_cons_of_mem q hp)
    · simp only [upsertPreference, if_neg hm] at hp
      rcases List.mem_cons.mp hp with hp | hp
      · subst hp
        exact hall p (List.mem_cons_self p qs)
      · exact ih (fun r hr => hall r (List.mem_cons_of_mem q hr)) p hp

theorem upsertPreference_keys (user_id ptype pvalue : String) (strength : ℚ) :
    ∀ ps : List Preference,
      (upsertPreference user_id ptype pvalue strength ps).map prefKey
        = if ps.any (prefKeyMatches user_id ptype)
            then ps.map prefKey
            else ps.map prefKey ++ [(user_id, ptype)] := by
  intro ps
  induction ps with
  | nil => simp [upsertPreference, prefKey]
  | cons q qs ih =>
    by_cases hm : prefKeyMatches user_id ptype q
    · simp [upsertPreference, hm, prefKey]
    · simp only [upsertPreference, if_neg hm, List.map_cons]
      rw [ih]
      by_cases ha : qs.any (prefKeyMatches user_id ptype)
      · simp [List.any_cons, ha, hm]
      · simp [List.any_cons, ha, hm]

theorem upsertPreference_keys_nodup (user_id ptype pvalue : String) (strength : ℚ)
    (ps : List Preference) (hnd : (ps.map prefKey).Nodup) :
    ((upsertPreference user_id ptype pvalue strength ps).map prefKey).Nodup := by
  rw [upsertPreference_keys]
  by_cases ha : ps.any (prefKeyMatches user_id ptype)
  · simpa [ha] using hnd
  · simp only [ha, if_neg (by simp [ha] : ¬(ps.any (prefKeyMatches user_id ptype) = true))]
    refine List.Nodup.append hnd (List.nodup_singleton _) ?_
    intro k hk hk1
    rcases List.mem_map.mp hk with ⟨p, hp, hkey⟩
    rcases List.mem_singleton.mp hk1 with rfl
    have : prefKeyMatches user_id ptype p = true := (prefKeyMatches_iff _ _ _).mpr hkey
    exact (List.any_eq_true.not.mp ha) ⟨p, hp, this⟩

theorem upsertPreference_of_find_none (user_id ptype pvalue : String) (strength : ℚ) :
    ∀ ps : List Preference, ps.find? (prefKeyMatches user_id ptype) = none →
      upsertPreference user_id ptype pvalue strength ps
        = ps ++ [{ user_id := user_id, preference_type := ptype,
                   preference_value := pvalue, strength := strength }] := by
  intro ps
  induction ps with
  | nil => intro _; rfl
  | cons q qs ih =>
    intro hf
    cases hm : prefKeyMatches user_id ptype q with
    | true => simp [List.find?_cons, hm] at hf
    | false =>
      have hf' : qs.find? (prefKeyMatches user_id ptype) = none := by
        simpa [List.find?_cons, hm] using hf
      simp only [upsertPreference, hm, Bool.false_eq_true, if_false]
      rw [ih hf']
      rfl

theorem upsertPreference_of_find_some (user_id ptype pvalue : String) (strength : ℚ) :
    ∀ (ps : List Preference) (p : Preference),
      ps.find? (prefKeyMatches user_id ptype) = some p →
      (upsertPreference user_id ptype pvalue strength ps).find?
          (prefKeyMatches user_id ptype)
        = some { user_id := p.user_id, preference_type := p.preference_type,
                 preference_value := pvalue,
                 strength := min 1 (p.strength + strength) } := by
  intro ps
  induction ps with
  | nil => intro p hp; simp [List.find?] at hp
  | cons q qs ih =>
    intro p hp
    cases hm : prefKeyMatches user_id ptype q with
    | true =>
      have hq : q = p := by simpa [List.find?_cons, hm] using hp
      subst hq
      simp only [upsertPreference, hm, if_true]
      have hm' : prefKeyMatches user_id ptype
          { q with preference_value := pvalue,
                   strength := min 1 (q.strength + strength) } = true := hm
      simp [List.find?_cons, hm']
    | false =>
      have hp' : qs.find? (prefKeyMatches user_id ptype) = some p := by
        simpa [List.find?_cons, hm] using hp
      simp only [upsertPreference, hm, Bool.false_eq_true, if_false]
      rw [List.find?_cons, hm]
      exact ih p hp'

theorem runPreferences_invariant (calls : List PrefCall) :
    ∀ store : MemoryStore,
      (∀ c ∈ calls, c.strength ≤ 1) →
      (∀ p ∈ store.preferences, p.strength ≤ 1) →
      ((store.preferences.map prefKey).Nodup) →
      (∀ p ∈ (runPreferences calls store).preferences, p.strength ≤ 1) ∧
        (((runPreferences calls store).preferences.map prefKey).Nodup) := by
  induction calls with
  | nil => intro store _ h1 h2; exact ⟨h1, h2⟩
  | cons c cs ih =>
    intro store hc h1 h2
    have hstep := upsertPreference_strength_le c.user_id c.preference_type
      c.preference_value c.strength (hc c (List.mem_cons_self c cs))
      store.preferences h1
    have hnd := upsertPreference_keys_nodup c.user_id c.preference_type
      c.preference_value c.strength store.preferences h2
    exact ih _ (fun d hd => hc d (List.mem_cons_of_mem c hd)) hstep hnd

/-- C3 fails on the code as stated: the cap applies only on the UPDATE path.
A single `update_preference` call with the positive delta 2 on a fresh
store takes the INSERT path and stores strength 2 verbatim, which exceeds
1.0. -/
theorem C3_counterexample :
    (update_preference initialStore "likes_code" "yes" "user1" 2).preferences
      = [{ user_id := "user1", preference_type := "likes_code",
           preference_value := "yes", strength := 2 }] ∧
    ¬ ((2 : ℚ) ≤ 1) := by
  constructor
  · rfl
  · decide

/-- C3 amended: when the key exists the new strength is
`min(1.0, prior + delta)`; when it does not exist the row is created with
strength equal to the raw delta, *uncapped* — so the stored strength stays
≤ 1.0 for every sequence of calls whose deltas are positive and at most 1.0
(a first delta above 1.0 is stored above the cap, see `C3_counterexample`);
starting from an empty table, at most one row per (user_id, preference_type)
ever exists. -/
theorem C3_preference_cap (calls : List PrefCall)
    (hd : ∀ c ∈ calls, 0 < c.strength ∧ c.strength ≤ 1) :
    (∀ p ∈ (runPreferences calls initialStore).preferences, p.strength ≤ 1) ∧
    (((runPreferences calls initialStore).preferences.map prefKey).Nodup) ∧
    (∀ (user_id ptype pvalue : String) (strength : ℚ) (ps : List Preference),
      ps.find? (prefKeyMatches user_id ptype) = none →
      upsertPreference user_id ptype pvalue strength ps
        = ps ++ [{ user_id := user_id, preference_type := ptype,
                   preference_value := pvalue, strength := strength }]) ∧
    (∀ (user_id ptype pvalue : String) (strength : ℚ)
        (ps : List Preference) (p : Preference),
      ps.find? (prefKeyMatches user_id ptype) = some p →
      (upsertPreference user_id ptype pvalue strength ps).find?
          (prefKeyMatches user_id ptype)
        = some { user_id := p.user_id, preference_type := p.preference_type,
                 preference_value := pvalue,
                 strength := min 1 (p.strength + strength) }) := by
  have hinv := runPreferences_invariant calls initialStore
    (fun c hc => (hd c hc).2) (by simp [initialStore]) (by simp [initialStore])
  exact ⟨hinv.1, hinv.2,
    fun u t pv s ps hf => upsertPreference_of_find_none u t pv s ps hf,
    fun u t pv s ps p hf => upsertPreference_of_find_some u t pv s ps p hf⟩

/-- Two observations of (user1, likes_code), each with a positive delta of
at most 1 (the shape of the spec scenario with delta 0.6 twice). -/
def capCalls : List PrefCall :=
  [{ preference_type := "likes_code", preference_value := "yes",
     user_id := "user1", strength := 1 },
   { preference_type := "likes_code", preference_value := "yes",
     user_id := "user1", strength := 1 }]

theorem C3_preference_cap_witness :
    (∀ c ∈ capCalls, 0 < c.strength ∧ c.strength ≤ 1) ∧
    (((runPreferences capCalls initialStore).preferences.map prefKey).Nodup) :=
  ⟨by decide, (C3_preference_cap capCalls (by decide)).2.1⟩

/-! ## C4: retention sweep idempotence -/

/-- A fact that has never been used (`last_used IS NULL`), confidence 1. -/
def factNeverUsed : KnowledgeFact :=
  { id := 1, fact := "water boils at 100C", category := "science",
    source := "wiki", confidence := 1, last_used := none, usage_count := 0,
    created_at := 0 }

/-- A store holding only `factNeverUsed`. -/
def storeOneFact : MemoryStore :=
  { conversations := [], knowledge := [factNeverUsed], preferences := [],
    index := none }

/-- C4 fails on the code: the decay UPDATE's WHERE clause
(`last_used < cutoff OR last_used IS NULL`) is unchanged by the UPDATE
itself, so a second sweep with the same cutoff multiplies the same facts'
confidence by 0.9 again: 1 → 0.9 after one sweep, → 0.81 after two. -/
theorem C4_counterexample :
    (cleanup_old_memory (cleanup_old_memory storeOneFact 30) 30).knowledge.map
        KnowledgeFact.confidence
      ≠ (cleanup_old_memory storeOneFact 30).knowledge.map
          KnowledgeFact.confidence := by
  simp only [cleanup_old_memory, storeOneFact, factNeverUsed, decayStep,
    decayQualifies, List.map_map, List.map_cons, List.map_nil, List.filter_nil]
  norm_num

/-- C4 amended: the purge step is idempotent — a second
`cleanup_old_memory` with the same cutoff deletes no further conversations —
but the sweep as a whole is not: the second run applies the ×0.9 decay step
to the once-decayed knowledge table again, so every qualifying fact ends at
0.81 of its original confidence instead of 0.9. -/
theorem C4_sweep_not_idempotent (store : MemoryStore) (cutoff : Nat) :
    (cleanup_old_memory (cleanup_old_memory store cutoff) cutoff).conversations
      = (cleanup_old_memory store cutoff).conversations ∧
    (cleanup_old_memory (cleanup_old_memory store cutoff) cutoff).knowledge
      = ((cleanup_old_memory store cutoff).knowledge).map (decayStep cutoff) ∧
    (∀ f : KnowledgeFact, decayQualifies cutoff f = true →
      (decayStep cutoff (decayStep cutoff f)).confidence
        = f.confidence * (81/100)) := by
  refine ⟨?_, rfl, ?_⟩
  · simp only [cleanup_old_memory]
    rw [List.filter_filter]
    simp
  · intro f hq
    have hq2 : decayQualifies cutoff { f with confidence := f.confidence * (9/10) }
        = true := hq
    simp only [decayStep, hq, hq2, if_true]
    ring

theorem C4_sweep_not_idempotent_witness :
    decayQualifies 30 factNeverUsed = true ∧
    (decayStep 30 (decayStep 30 factNeverUsed)).confidence
      = factNeverUsed.confidence * (81/100) :=
  ⟨by decide, (C4_sweep_not_idempotent storeOneFact 30).2.2 factNeverUsed (by decide)⟩

/-! ## C8: decay monotonicity -/

/-- A fact given the negative confidence -1, which `add_knowledge` accepts
verbatim (see C10). -/
def factNegConf : KnowledgeFact :=
  { id := 1, fact := "f", category := "c", source := "s", confidence := -1,
    last_used := none, usage_count := 0, created_at := 0 }

/-- A store holding only `factNegConf`. -/
def storeNegConf : MemoryStore :=
  { conversations := [], knowledge := [factNegConf], preferences := [],
    index := none }

/-- C8 fails on the code as stated over everything the knowledge table can
hold: multiplying by 0.9 *increases* a negative confidence, and negative
confidences are storable because `add_knowledge` does not validate its range
(C10): a fact stored with confidence -1 has confidence -0.9 > -1 after one
decay sweep. -/
theorem C8_counterexample :
    storeNegConf.knowledge.map KnowledgeFact.confidence = [-1] ∧
    (cleanup_old_memory storeNegConf 30).knowledge.map KnowledgeFact.confidence
      = [-(9/10)] ∧
    ((-1 : ℚ) < -(9/10)) := by
  refine ⟨rfl, ?_, by norm_num⟩
  simp only [cleanup_old_memory, storeNegConf, factNegConf, decayStep,
    decayQualifies, List.map_cons, List.map_nil]
  norm_num

/-- C8 amended: a decay sweep never deletes a fact (the knowledge table is
mapped row-for-row, preserving id, text and last_used), and never increases
the confidence of any fact whose stored confidence is nonnegative; a fact
with (out-of-range) negative confidence is moved up toward 0 instead. -/
theorem C8_decay_monotone (store : MemoryStore) (cutoff : Nat) :
    (cleanup_old_memory store cutoff).knowledge.length = store.knowledge.length ∧
    (cleanup_old_memory store cutoff).knowledge
      = store.knowledge.map (decayStep cutoff) ∧
    (∀ f : KnowledgeFact, 0 ≤ f.confidence →
      (decayStep cutoff f).confidence ≤ f.confidence) ∧
    (∀ f : KnowledgeFact, (decayStep cutoff f).id = f.id ∧
      (decayStep cutoff f).fact = f.fact ∧
      (decayStep cutoff f).last_used = f.last_used) := by
  refine ⟨by simp [cleanup_old_memory], rfl, ?_, ?_⟩
  · intro f hf
    by_cases hq : decayQualifies cutoff f
    · simp only [decayStep, hq, if_true]
      calc f.confidence * (9/10) ≤ f.confidence * 1 := by
            exact mul_le_mul_of_nonneg_left (by norm_num) hf
        _ = f.confidence := mul_one _
    · simp [decayStep, hq]
  · intro f
    by_cases hq : decayQualifies cutoff f <;> simp [decayStep, hq]

theorem C8_decay_monotone_witness :
    (0 : ℚ) ≤ factNeverUsed.confidence ∧
    (decayStep 30 factNeverUsed).confidence ≤ factNeverUsed.confidence :=
  ⟨by decide, (C8_decay_monotone storeOneFact 30).2.2.1 factNeverUsed (by decide)⟩

/-! ## C9: purge correctness -/

/-- C9: after the DELETE step of `cleanup_old_memory`, no remaining
conversation is both older than the cutoff and of importance below 2; every
conversation not matching both predicates is still present, unchanged; and
the surviving table is a sublist of the original (rows are kept verbatim, in
order, never duplicated). -/
theorem C9_purge_correct (store : MemoryStore) (cutoff : Nat) :
    (∀ t ∈ (cleanup_old_memory store cutoff).conversations,
      ¬(t.timestamp < cutoff ∧ t.importance < 2)) ∧
    (∀ t ∈ store.conversations, ¬(t.timestamp < cutoff ∧ t.importance < 2) →
      t ∈ (cleanup_old_memory store cutoff).conversations) ∧
    (cleanup_old_memory store cutoff).conversations.Sublist store.conversations := by
  refine ⟨?_, ?_, List.filter_sublist _⟩
  · intro t ht
    have hmem := (List.mem_filter.mp ht).2
    simp [purgeMatches] at hmem
    omega
  · intro t ht hpred
    refine List.mem_filter.mpr ⟨ht, ?_⟩
    simp [purgeMatches]
    omega

/-- An old but important conversation (timestamp before the cutoff,
importance 3). -/
def turnImportant : ConversationTurn :=
  { id := 1, session_id := "s1", user_message := "u", ai_response := "a",
    timestamp := 10, topic := none, importance := 3, embedding := none }

/-- A store holding only `turnImportant`. -/
def storeImportant : MemoryStore :=
  { conversations := [turnImportant], knowledge := [], preferences := [],
    index := none }

theorem C9_purge_correct_witness :
    turnImportant ∈ (cleanup_old_memory storeImportant 30).conversations :=
  (C9_purge_correct storeImportant 30).2.1 turnImportant (by decide) (by decide)

/-! ## C10: confidence stored verbatim -/

/-- C10: `add_knowledge` inserts the caller's confidence argument verbatim —
the new row carries exactly the given rational, with no clamping to [0, 1];
in particular the quantification covers every negative or above-1 value. -/
theorem C10_confidence_verbatim (store : MemoryStore)
    (fact category source : String) (conf : ℚ) (id now : Nat) :
    (add_knowledge store fact category source conf id now).knowledge
      = store.knowledge ++
        [{ id := id, fact := fact, category := category, source := source,
           confidence := conf, last_used := none, usage_count := 0,
           created_at := now }] ∧
    ((add_knowledge store fact category source conf id now).knowledge.map
        KnowledgeFact.confidence).getLast? = some conf := by
  refine ⟨rfl, ?_⟩
  simp [add_knowledge]
